import Mathlib

/-!
Verification development for the ORCA orbital-population analyzer
(`orca_orb.py`): a shallow embedding of its table of parsed
contribution records, the pandas aggregation views, the CSV cache
round trip, the HOMO derivation, the orbital-selection dispatch, the
constraint resolver and the focus-atom resolver, together with
theorems settling the specification claims.

Numeric columns of the pandas table are modelled as exact rationals
(`Rat`); machine-float rounding is not at issue in any claim, which
are all about sums, comparisons and schema shape.
-/

namespace OrcaOrb

/-- One row of the table `oall` built by the parse loop of
`orca_orb.py` (after the `astype` calls at lines 427-431 and the
`orb_red` insertion at line 434): one contribution record per
(orbital number, spin, atom, specific AO). -/
structure Record where
  orb_num : Int
  orb_spin : Nat
  orb_en : Rat
  orb_occ : Rat
  atom_no : Int
  element : String
  orbital : String
  orb_red : Char
  orb_comp : Rat
deriving DecidableEq, Repr

/-- Sum of the `Cntrb` (= `orb_comp`) column over a list of records,
as produced by the pandas `.agg(dict Cntrb sum)` calls. -/
def sumC (l : List Record) : Rat :=
  (l.map (fun r => r.orb_comp)).sum

/-- `df.groupby(keys).agg(dict Cntrb sum)`: one output row per
distinct key value, carrying the sum of `Cntrb` over the rows having
that key. -/
def groupSum {κ : Type} [DecidableEq κ] (key : Record → κ) (l : List Record) :
    List (κ × Rat) :=
  ((l.map key).dedup).map (fun k => (k, sumC (l.filter (fun r => decide (key r = k)))))

/-- Grouping key of `sum_by_el_a` / `sum_by_el_b` (lines 656, 666):
`[OrbNo, OrbitalEnergy, Occupation, Element]`. -/
def elKey (r : Record) : Int × Rat × Rat × String :=
  (r.orb_num, r.orb_en, r.orb_occ, r.element)

/-- Grouping key of `sum_by_at_a` / `sum_by_at_b` (lines 677, 687):
`[OrbNo, OrbitalEnergy, Occupation, Element, AtomNo]`. -/
def atKey (r : Record) : Int × Rat × Rat × String × Int :=
  (r.orb_num, r.orb_en, r.orb_occ, r.element, r.atom_no)

/-- Grouping key of `sum_by_orb` (lines 698, 708): adds the reduced
AO family `Orb`. -/
def orbKey (r : Record) : Int × Rat × Rat × String × Int × Char :=
  (r.orb_num, r.orb_en, r.orb_occ, r.element, r.atom_no, r.orb_red)

instance : DecidableEq (Int × Rat × Rat × String × Int × Char × String) :=
  instDecidableEqProd

/-- Grouping key of `sum_by_orb_or_a` / `sum_by_orb_or_b`
(lines 719, 729): adds the specific AO label `OrbOr`. -/
def orbOrKey (r : Record) : Int × Rat × Rat × String × Int × Char × String :=
  (r.orb_num, r.orb_en, r.orb_occ, r.element, r.atom_no, r.orb_red, r.orbital)

/-- Row filter common to the constrained views: spin channel, orbital
range, `Element.isin(list_of_elements)` and
`AtomNo.isin(list_of_atoms)` (e.g. lines 677-678). -/
def constrainedFilter (spin : Nat) (s e : Int) (elems : List String)
    (atoms : List Int) (r : Record) : Bool :=
  decide (r.orb_spin = spin) && decide (s ≤ r.orb_num) && decide (r.orb_num ≤ e) &&
    decide (r.element ∈ elems) && decide (r.atom_no ∈ atoms)

/-- The element-level view `sum_by_el_a` (spin 0) / `sum_by_el_b`
(spin 1): only spin and orbital range are filtered, no threshold and
no constraints (lines 656-657, 666-667). -/
def sum_by_el (tbl : List Record) (spin : Nat) (s e : Int) :
    List ((Int × Rat × Rat × String) × Rat) :=
  groupSum elKey (tbl.filter (fun r =>
    decide (r.orb_spin = spin) && decide (s ≤ r.orb_num) && decide (r.orb_num ≤ e)))

/-- The atom-level view `sum_by_at_a` / `sum_by_at_b`
(lines 677-679, 687-689), before the threshold row filter. -/
def sum_by_at (tbl : List Record) (spin : Nat) (s e : Int)
    (elems : List String) (atoms : List Int) :
    List ((Int × Rat × Rat × String × Int) × Rat) :=
  groupSum atKey (tbl.filter (constrainedFilter spin s e elems atoms))

/-- The AO-family view `sum_by_orb` (lines 698-700, 708-710), before
the threshold row filter. -/
def sum_by_orb (tbl : List Record) (spin : Nat) (s e : Int)
    (elems : List String) (atoms : List Int) :
    List ((Int × Rat × Rat × String × Int × Char) × Rat) :=
  groupSum orbKey (tbl.filter (constrainedFilter spin s e elems atoms))

/-- The specific-AO view `sum_by_orb_or_a` / `sum_by_orb_or_b`
(lines 719-721, 729-731), before the threshold row filter. -/
def sum_by_orb_or (tbl : List Record) (spin : Nat) (s e : Int)
    (elems : List String) (atoms : List Int) :
    List ((Int × Rat × Rat × String × Int × Char × String) × Rat) :=
  groupSum orbOrKey (tbl.filter (constrainedFilter spin s e elems atoms))

/-- The threshold row filter applied to a grouped view before
printing: `view[(view.Cntrb >= threshold)]` (lines 681, 702, 723). -/
def thresholded {κ : Type} (rows : List (κ × Rat)) (t : Rat) : List (κ × Rat) :=
  rows.filter (fun p => decide (t ≤ p.2))

/-! ### The CSV cache round trip (lines 357-371 and 427-440)

A pandas column cell, at the abstraction level `read_csv` sees: the
cell of an `int64` column is printed without a decimal point, the
cell of a `float32`/`float64` column is printed with one, and other
cells are arbitrary text.  `read_csv` re-infers each column dtype
from this shape. -/
inductive Cell where
  | int (i : Int)
  | num (q : Rat)
  | str (s : String)
deriving DecidableEq, Repr

/-- pandas column dtypes occurring in the program. -/
inductive Dtype where
  | int64
  | float32
  | float64
  | obj
deriving DecidableEq, Repr

/-- One named, typed column of a data frame. -/
structure Column where
  name : String
  dtype : Dtype
  cells : List Cell
deriving DecidableEq, Repr

/-- `True` exactly for cells printed without a decimal point. -/
def isIntCell : Cell → Bool
  | Cell.int _ => true
  | _ => false

/-- `True` exactly for numeric cells (integer- or float-printed). -/
def isNumericCell : Cell → Bool
  | Cell.int _ => true
  | Cell.num _ => true
  | _ => false

/-- The data frame `oall` as the fresh parse produces it: column
order from the `insert` calls at lines 390-397 plus the `orb_red`
insertion at `loc=6` (line 434), dtypes from the `astype` calls at
lines 427-431 (`orb_spin` is created from a Python `int` scalar and
is `int64` without a cast). -/
def freshStore (tbl : List Record) : List Column :=
  [⟨"orb_num", Dtype.int64, tbl.map (fun r => Cell.int r.orb_num)⟩,
   ⟨"orb_spin", Dtype.int64, tbl.map (fun r => Cell.int r.orb_spin)⟩,
   ⟨"orb_en", Dtype.float64, tbl.map (fun r => Cell.num r.orb_en)⟩,
   ⟨"orb_occ", Dtype.float32, tbl.map (fun r => Cell.num r.orb_occ)⟩,
   ⟨"atom_no", Dtype.int64, tbl.map (fun r => Cell.int r.atom_no)⟩,
   ⟨"element", Dtype.obj, tbl.map (fun r => Cell.str r.element)⟩,
   ⟨"orb_red", Dtype.obj, tbl.map (fun r => Cell.str (String.mk [r.orb_red]))⟩,
   ⟨"orbital", Dtype.obj, tbl.map (fun r => Cell.str r.orbital)⟩,
   ⟨"orb_comp", Dtype.float64, tbl.map (fun r => Cell.num r.orb_comp)⟩]

/-- The textual form of a CSV file: a header row and the data
columns (column-major). -/
structure CsvFile where
  header : List String
  cols : List (List Cell)
deriving DecidableEq, Repr

/-- Number of rows of a (rectangular) data frame. -/
def numRows (store : List Column) : Nat :=
  match store with
  | [] => 0
  | c :: _ => c.cells.length

/-- The `RangeIndex` column 0, 1, 2, ... that `to_csv` prepends. -/
def indexCells (n : Nat) : List Cell :=
  (List.range n).map (fun i => Cell.int i)

/-- `oall.to_csv(...)` (line 439): pandas default `index=True`
writes the row index as a first column under an empty header
field. -/
def to_csv (store : List Column) : CsvFile :=
  { header := "" :: store.map (fun c => c.name),
    cols := indexCells (numRows store) :: store.map (fun c => c.cells) }

/-- `read_csv` dtype inference per column: all integer-printed cells
give `int64`, numeric cells with at least one float-printed cell give
`float64`, anything else gives `object`. -/
def inferDtype (cells : List Cell) : Dtype :=
  if cells.all isIntCell then Dtype.int64
  else if cells.all isNumericCell then Dtype.float64
  else Dtype.obj

/-- `read_csv` column naming: an empty header field becomes
`Unnamed: 0`. -/
def readName (s : String) : String :=
  if s = "" then "Unnamed: 0" else s

/-- `pd.read_csv(...)` (line 365): rebuild the frame from the text,
re-inferring every column dtype. -/
def read_csv (f : CsvFile) : List Column :=
  (f.header.zip f.cols).map (fun p => ⟨readName p.1, inferDtype p.2, p.2⟩)

/-! ### Derived scalars (lines 444-452) -/

/-- `['orb_num'].max()` over a list of records; pandas yields the true
maximum on the non-empty groups it is applied to (the `getD 0`
default is never exercised there). -/
def maxOrbNum (l : List Record) : Int :=
  ((l.map (fun r => r.orb_num)).max?).getD 0

/-- `tot_num_of_orb_a` (lines 444-445): the maximum alpha orbital
number, from the first row of `groupby(orb_spin).max()` (spin keys
sort ascending, so row 0 is spin 0 whenever alpha records exist). -/
def totNumOrbA (tbl : List Record) : Int :=
  maxOrbNum (tbl.filter (fun r => decide (r.orb_spin = 0)))

/-- The sorted distinct occupation values:
`groupby(['orb_occ'])` group keys, in ascending key order (pandas
`sort=True` default). -/
def occGroups (tbl : List Record) : List Rat :=
  List.insertionSort (fun a b => a ≤ b) ((tbl.map (fun r => r.orb_occ)).dedup)

/-- `homo_num` (lines 451-452): group by occupation, take each
group's maximum `orb_num`, and read row 1 — the second-smallest
occupation group.  `none` models the unhandled `KeyError` raised by
`.loc[1, ...]` when fewer than two distinct occupations exist. -/
def homoNum (tbl : List Record) : Option Int :=
  match occGroups tbl with
  | _ :: c :: _ => some (maxOrbNum (tbl.filter (fun r => decide (r.orb_occ = c))))
  | _ => none

/-! ### Regex helpers (lines 458-461)

User expressions are modelled as `List Char`; a Python string
compares equal to a literal exactly when the character lists are
equal. -/

/-- Numeric value of a decimal digit string (Python `int`). -/
def parseDigits (l : List Char) : Nat :=
  l.foldl (fun a c => 10 * a + (c.toNat - '0'.toNat)) 0

/-- `re.match` of an anchored `\d+` succeeds iff the first character
is a digit. -/
def startsDigit : List Char → Bool
  | [] => false
  | c :: _ => c.isDigit

/-- Accumulator for `digitRuns`. -/
def digitRunsAux : List Char → List Char → List (List Char)
  | [], acc => if acc = [] then [] else [acc.reverse]
  | c :: rest, acc =>
    if c.isDigit then digitRunsAux rest (c :: acc)
    else if acc = [] then digitRunsAux rest []
    else acc.reverse :: digitRunsAux rest []

/-- `re.findall` of `\d+` / `[\d]+`: the maximal runs of digits, in
order of occurrence. -/
def digitRuns (l : List Char) : List (List Char) :=
  digitRunsAux l []

/-- `elm = re.compile` of one uppercase letter followed by at most
one lowercase letter; `findall` collects the non-overlapping matches
left to right. -/
def elmFindall : List Char → List (List Char)
  | [] => []
  | [c] => if c.isUpper then [[c]] else []
  | c :: d :: rest =>
    if c.isUpper then
      if d.isLower then [c, d] :: elmFindall rest
      else [c] :: elmFindall (d :: rest)
    else elmFindall (d :: rest)

/-- `re.match` of the element pattern succeeds iff the first
character is an uppercase letter. -/
def startsUpper : List Char → Bool
  | [] => false
  | c :: _ => c.isUpper

/-! ### Orbital-selection dispatch (lines 463-495) -/

/-- Result of the orbital-selection dispatch: a resolved
`[orb_start, orb_end]` pair, one of the two `exit()` paths, or the
unhandled `IndexError` raised by `findall(...)[1]` when fewer than
two digit runs exist. -/
inductive OrbOutcome where
  | sel (s e : Int)
  | invertedExit
  | malformedExit
  | indexErr
deriving DecidableEq, Repr

/-- The last two branches of the orbital dispatch: an anchored
`h(\d+)` match (lines 488-491) resolves to the window
`homo-k ... homo+k` with `k` the digit run following the leading
`h`; everything else is the malformed-input exit (lines 493-495). -/
def homoBranch (l : List Char) (homo : Int) : OrbOutcome :=
  match l with
  | c0 :: c1 :: rest =>
    if c0 = 'h' ∧ c1.isDigit then
      OrbOutcome.sel (homo - parseDigits ((c1 :: rest).takeWhile Char.isDigit))
        (homo + parseDigits ((c1 :: rest).takeWhile Char.isDigit))
    else OrbOutcome.malformedExit
  | _ => OrbOutcome.malformedExit

/-- The `args.orbitals` dispatch chain (lines 463-495), branch by
branch: the literal `all`; the literals `HOMO`/`h`/`homo`; a
`.isdigit()` string; an anchored `\d+` match, taking the first two
digit runs (an `IndexError` if fewer exist) and exiting when
inverted; then `homoBranch`. -/
def orbDispatch (l : List Char) (homo maxA : Int) : OrbOutcome :=
  if l = ['a', 'l', 'l'] then OrbOutcome.sel 0 maxA
  else if l = ['H', 'O', 'M', 'O'] ∨ l = ['h'] ∨ l = ['h', 'o', 'm', 'o'] then
    OrbOutcome.sel homo homo
  else if l ≠ [] ∧ l.all Char.isDigit then
    OrbOutcome.sel (parseDigits l) (parseDigits l)
  else if startsDigit l then
    match digitRuns l with
    | a :: b :: _ =>
      if parseDigits a > parseDigits b then OrbOutcome.invertedExit
      else OrbOutcome.sel (parseDigits a) (parseDigits b)
    | _ => OrbOutcome.indexErr
  else homoBranch l homo

/-- The orbital numbers of a resolved inclusive range `[s, e]`. -/
def orbitalList (s e : Int) : List Int :=
  (List.range (e - s + 1).toNat).map (fun i => s + Int.ofNat i)

/-- The post-resolution bounds check (lines 598-600): fatal when
`orb_start < 0`, `orb_end < 0`, or `orb_end` exceeds the maximum
alpha orbital. -/
def boundsCheckFails (s e maxA : Int) : Prop :=
  s < 0 ∨ e < 0 ∨ e > maxA

instance (s e maxA : Int) : Decidable (boundsCheckFails s e maxA) := by
  unfold boundsCheckFails; infer_instance

/-! ### Constraint resolution (lines 502-542) -/

/-- `oall['element'].unique()`: the distinct element symbols (order
immaterial — only membership in the selection is consumed). -/
def uniqueElements (tbl : List Record) : List String :=
  (tbl.map (fun r => r.element)).dedup

/-- `oall['atom_no'].unique()`: the distinct atom numbers (order
immaterial — only membership in the selection is consumed). -/
def uniqueAtoms (tbl : List Record) : List Int :=
  (tbl.map (fun r => r.atom_no)).dedup

/-- Outcome of the constraint resolution: the element and atom
selections fed to the constrained views, and whether the
none-found warning was printed. -/
structure ConstraintResult where
  elements : List String
  atoms : List Int
  warned : Bool
deriving DecidableEq, Repr

/-- The `args.constraints` chain (lines 502-542): `none` keeps
everything; an expression starting with an uppercase letter keeps the
element tokens found in the table, falling back (with a warning) to
everything when none are; an expression starting with a digit does
the same with atom numbers; anything else warns and keeps
everything.  Python set intersections are modelled as filtered,
deduplicated lists — only membership in them is consumed
downstream. -/
def constraintResolve (tbl : List Record) (expr : List Char) : ConstraintResult :=
  if expr = ['n', 'o', 'n', 'e'] then
    ⟨uniqueElements tbl, uniqueAtoms tbl, false⟩
  else if startsUpper expr then
    let found := (((elmFindall expr).map String.mk).dedup).filter
      (fun s => decide (s ∈ uniqueElements tbl))
    if found ≠ [] then ⟨found, uniqueAtoms tbl, false⟩
    else ⟨uniqueElements tbl, uniqueAtoms tbl, true⟩
  else if startsDigit expr then
    let found := ((((digitRuns expr).map (fun t => (parseDigits t : Int))).dedup)).filter
      (fun a => decide (a ∈ uniqueAtoms tbl))
    if found ≠ [] then ⟨uniqueElements tbl, found, false⟩
    else ⟨uniqueElements tbl, uniqueAtoms tbl, true⟩
  else ⟨uniqueElements tbl, uniqueAtoms tbl, true⟩

/-! ### Focus-atom resolution for the AO detail plots (lines 548-595) -/

/-- Outcome of the focus-atom resolution: either no detail plots
(`constr_for_atoms_set` stays `False`; `warned` records whether the
none-found warning was printed) or detail plots for the final
`list_of_atoms_ao`. -/
inductive AoResult where
  | off (warned : Bool)
  | on (atoms : List Int)
deriving DecidableEq, Repr

/-- `set(map(int, atm.findall(args.aorbitals))) ∩ atom_no.unique()`
(line 555): the requested atoms actually present in the table. -/
def requestedAtoms (tbl : List Record) (expr : List Char) : List Int :=
  (((digitRuns expr).map (fun t => (parseDigits t : Int))).dedup).filter
    (fun a => decide (a ∈ uniqueAtoms tbl))

/-- The atoms carrying one of the given elements:
`oall.loc[oall['element'].isin(list_of_elements), 'atom_no']`
(line 567); only membership in it is consumed. -/
def atomsOfElements (tbl : List Record) (elems : List String) : List Int :=
  (tbl.filter (fun r => decide (r.element ∈ elems))).map (fun r => r.atom_no)

/-- The `args.aorbitals` resolution (lines 548-595), following the
code's successive reassignments of `list_of_atoms_ao`: start from
the requested atoms present in the table; replace by the
intersection with `list_of_atoms` when that is non-empty (line 560);
replace by the intersection with the atoms of `list_of_elements`
when that is non-empty (line 567), then require a non-empty
intersection with `list_of_atoms` once more (line 571); every
failing branch warns and turns the detail plots off.  An expression
not starting with a digit is silently inert (the warning at
lines 592-593 is commented out). -/
def aoResolve (tbl : List Record) (listAtoms : List Int) (listElems : List String)
    (expr : List Char) : AoResult :=
  if startsDigit expr then
    let req := requestedAtoms tbl expr
    if req ≠ [] then
      let a1 := if req.filter (fun a => decide (a ∈ listAtoms)) ≠ [] then
        req.filter (fun a => decide (a ∈ listAtoms)) else req
      let ce := atomsOfElements tbl listElems
      if a1.filter (fun a => decide (a ∈ ce)) ≠ [] then
        let a2 := a1.filter (fun a => decide (a ∈ ce))
        if a2.filter (fun a => decide (a ∈ listAtoms)) ≠ [] then AoResult.on a2
        else AoResult.off true
      else AoResult.off true
    else AoResult.off true
  else AoResult.off false

/-- Modelled from the spec: the focus-atom set as claim C9 words it
— the union of (requested atoms ∩ atom constraint) and (requested
atoms ∩ atoms of the element constraint).  Kept separate from
`aoResolve`, which follows the code, to compare the two. -/
def aoClaimUnion (tbl : List Record) (listAtoms : List Int) (listElems : List String)
    (expr : List Char) : List Int :=
  (((requestedAtoms tbl expr).filter (fun a => decide (a ∈ listAtoms))) ++
    ((requestedAtoms tbl expr).filter
      (fun a => decide (a ∈ atomsOfElements tbl listElems)))).dedup

/-! ### Whole-run effect order (lines 357-606 and the plot section) -/

/-- The externally visible file writes of one run, in program
order. -/
inductive Effect where
  | cacheWrite
  | reportWrite
  | plotWrite
deriving DecidableEq, Repr

/-- How a run ends: normal completion, one of the user-reported
`exit()` paths, or an unhandled exception. -/
inductive Outcome where
  | completed
  | exitMalformed
  | exitInverted
  | exitBounds
  | errHomoLookup
  | errOrbIndex
deriving DecidableEq, Repr

/-- Final state of one run: the file writes performed, in order, and
how the run ended. -/
structure RunResult where
  effects : List Effect
  outcome : Outcome
deriving DecidableEq, Repr

/-- The top-level control flow after a successful parse, in source
order: the cache CSV is written when absent or `-ncsv` is given
(lines 437-440); `homo_num` is computed unconditionally (lines
450-452, a `KeyError` aborts here); the orbital expression is
dispatched (lines 463-495, `exit()` on a malformed or inverted
input); the bounds check runs (lines 598-600); only then are the
report and the plots written (line 606 onward). -/
def run (tbl : List Record) (cacheExists newcsv : Bool) (orbExpr : List Char) :
    RunResult :=
  let cacheEff := if cacheExists = false ∨ newcsv = true then [Effect.cacheWrite] else []
  match homoNum tbl with
  | none => ⟨cacheEff, Outcome.errHomoLookup⟩
  | some homo =>
    match orbDispatch orbExpr homo (totNumOrbA tbl) with
    | OrbOutcome.malformedExit => ⟨cacheEff, Outcome.exitMalformed⟩
    | OrbOutcome.invertedExit => ⟨cacheEff, Outcome.exitInverted⟩
    | OrbOutcome.indexErr => ⟨cacheEff, Outcome.errOrbIndex⟩
    | OrbOutcome.sel s e =>
      if boundsCheckFails s e (totNumOrbA tbl) then ⟨cacheEff, Outcome.exitBounds⟩
      else ⟨cacheEff ++ [Effect.reportWrite, Effect.plotWrite], Outcome.completed⟩

/-! ### General list lemmas -/

theorem length_filter_mono {α : Type} (p q : α → Bool)
    (h : ∀ a, p a = true → q a = true) :
    ∀ l : List α, (l.filter p).length ≤ (l.filter q).length := by
  intro l
  induction l with
  | nil => simp
  | cons a t ih =>
    cases hp : p a with
    | true =>
      simp only [List.filter_cons, hp, h a hp, if_true, List.length_cons]
      exact Nat.succ_le_succ ih
    | false =>
      simp only [List.filter_cons, hp, Bool.false_eq_true, if_false]
      cases hq : q a with
      | true =>
        simp only [hq, if_true, List.length_cons]
        exact Nat.le_succ_of_le ih
      | false =>
        simp only [hq, Bool.false_eq_true, if_false]
        exact ih

theorem sumC_cons (a : Record) (l : List Record) :
    sumC (a :: l) = a.orb_comp + sumC l := by
  simp [sumC]

theorem sumC_filter_add_not (p : Record → Bool) (l : List Record) :
    sumC (l.filter p) + sumC (l.filter (fun r => !(p r))) = sumC l := by
  induction l with
  | nil => simp [sumC]
  | cons a t ih =>
    cases hp : p a with
    | true =>
      simp only [List.filter_cons, hp, Bool.not_true, Bool.false_eq_true, if_false,
        if_true, sumC_cons]
      rw [add_assoc, ih]
    | false =>
      simp only [List.filter_cons, hp, Bool.not_false, Bool.false_eq_true, if_false,
        if_true, sumC_cons]
      rw [add_left_comm, ih]

theorem sum_over_groups {κ : Type} [DecidableEq κ] (key : Record → κ) :
    ∀ (ks : List κ) (l : List Record), ks.Nodup → (∀ r ∈ l, key r ∈ ks) →
    (ks.map (fun k => sumC (l.filter (fun r => decide (key r = k))))).sum = sumC l := by
  intro ks
  induction ks with
  | nil =>
    intro l _ h
    have hl : l = [] := by
      cases l with
      | nil => rfl
      | cons a t => exact absurd (h a (by simp)) (by simp)
    subst hl
    simp [sumC]
  | cons k ks ih =>
    intro l hnd hmem
    have hk : k ∉ ks := (List.nodup_cons.mp hnd).1
    have hnd' : ks.Nodup := (List.nodup_cons.mp hnd).2
    have hmap : ks.map (fun k2 => sumC (l.filter (fun r => decide (key r = k2)))) =
        ks.map (fun k2 => sumC ((l.filter (fun r => !(decide (key r = k)))).filter
          (fun r => decide (key r = k2)))) := by
      apply List.map_congr_left
      intro k2 hk2
      congr 1
      rw [List.filter_filter]
      apply List.filter_congr
      intro r _
      rcases Decidable.em (key r = k2) with h2 | h2
      · have hne : ¬ key r = k := by
          intro h3
          apply hk
          have h4 : k2 = k := by rw [← h2, h3]
          rwa [h4] at hk2
        have hne2 : ¬ (k2 = k) := fun h3 => hk (h3 ▸ hk2)
        simp [h2, hne2]
      · simp [h2]
    rw [List.map_cons, List.sum_cons, hmap,
      ih (l.filter (fun r => !(decide (key r = k)))) hnd' ?_]
    · exact sumC_filter_add_not _ l
    · intro r hr
      rw [List.mem_filter] at hr
      have h1 := hmem r hr.1
      have h2 := hr.2
      simp only [Bool.not_eq_true', decide_eq_false_iff_not] at h2
      simp only [List.mem_cons] at h1
      tauto

/-- Summing the `Cntrb` column of a grouped view over the rows whose
key satisfies `P` gives the `Cntrb` sum over the underlying records
whose key satisfies `P`. -/
theorem groupSum_sum_filter {κ : Type} [DecidableEq κ] (key : Record → κ)
    (P : κ → Bool) (l : List Record) :
    ((((groupSum key l).filter (fun p => P p.1)).map (fun p => p.2)).sum)
      = sumC (l.filter (fun r => P (key r))) := by
  unfold groupSum
  rw [List.filter_map, List.map_map]
  simp only [Function.comp_def]
  have hmap : (((l.map key).dedup.filter (fun k => P k)).map
      (fun k => sumC (l.filter (fun r => decide (key r = k))))) =
      (((l.map key).dedup.filter (fun k => P k)).map
        (fun k => sumC ((l.filter (fun r => P (key r))).filter
          (fun r => decide (key r = k))))) := by
    apply List.map_congr_left
    intro k hk
    rw [List.mem_filter] at hk
    congr 1
    rw [List.filter_filter]
    apply List.filter_congr
    intro r _
    rcases Decidable.em (key r = k) with h1 | h1
    · simp [h1, hk.2]
    · simp [h1]
  rw [hmap]
  apply sum_over_groups key
  · exact (List.nodup_dedup _).filter _
  · intro r hr
    rw [List.mem_filter] at hr ⊢
    refine ⟨?_, hr.2⟩
    rw [List.mem_dedup]
    exact List.mem_map_of_mem key hr.1

/-- C2.  Conservation: for every orbital number inside the selected
range and every spin channel, the `Cntrb` sum over the rows of the
element-level view for that orbital equals the `contribution_percent`
sum over all underlying records of that (orbital, spin). -/
theorem element_view_conserves_sum (tbl : List Record) (spin : Nat) (s e n : Int)
    (hs : s ≤ n) (he : n ≤ e) :
    ((((sum_by_el tbl spin s e).filter (fun p => decide (p.1.1 = n))).map
      (fun p => p.2)).sum)
      = sumC (tbl.filter (fun r => decide (r.orb_spin = spin ∧ r.orb_num = n))) := by
  unfold sum_by_el
  rw [groupSum_sum_filter elKey (fun k => decide (k.1 = n))]
  rw [List.filter_filter]
  apply congrArg sumC
  apply List.filter_congr
  intro r _
  simp only [elKey]
  rcases Decidable.em (r.orb_num = n) with h1 | h1
  · rcases Decidable.em (r.orb_spin = spin) with h2 | h2
    · simp [h1, h2, hs, he]
    · simp [h1, h2]
  · simp [h1]

/-- Witness for C2 at a concrete two-record table. -/
theorem element_view_conserves_sum_witness :
    (0 : Int) ≤ 5 ∧ (5 : Int) ≤ 9 ∧
    ((((sum_by_el [⟨5, 0, -3/10, 2, 0, "C", "s", 's', 70⟩,
        ⟨5, 0, -3/10, 2, 1, "N", "pz", 'p', 30⟩] 0 0 9).filter
      (fun p => decide (p.1.1 = 5))).map (fun p => p.2)).sum)
      = sumC ([⟨5, 0, -3/10, 2, 0, "C", "s", 's', 70⟩,
        ⟨5, 0, -3/10, 2, 1, "N", "pz", 'p', 30⟩].filter
        (fun r => decide (r.orb_spin = 0 ∧ r.orb_num = 5))) :=
  ⟨by decide, by decide,
    element_view_conserves_sum _ 0 0 9 5 (by decide) (by decide)⟩

/-- Rows surviving a higher threshold are never more numerous. -/
theorem thresholded_length_mono {κ : Type} (rows : List (κ × Rat)) (t1 t2 : Rat)
    (h : t1 ≤ t2) : (thresholded rows t2).length ≤ (thresholded rows t1).length := by
  apply length_filter_mono
  intro p hp
  simp only [decide_eq_true_eq] at hp ⊢
  exact le_trans h hp

/-- A row survives the threshold filter iff its `Cntrb` is at least
the threshold (inclusive comparison). -/
theorem mem_thresholded {κ : Type} (rows : List (κ × Rat)) (t : Rat) (row : κ × Rat) :
    row ∈ thresholded rows t ↔ row ∈ rows ∧ t ≤ row.2 := by
  simp [thresholded]

/-- C3.  Threshold monotonicity over the by-atom, by-AO-family and
by-specific-AO views, and inclusiveness of the comparison keeping a
row. -/
theorem threshold_monotone_and_inclusive (tbl : List Record) (spin : Nat) (s e : Int)
    (elems : List String) (atoms : List Int) (t1 t2 : Rat) (h : t1 ≤ t2) :
    (thresholded (sum_by_at tbl spin s e elems atoms) t2).length ≤
      (thresholded (sum_by_at tbl spin s e elems atoms) t1).length ∧
    (thresholded (sum_by_orb tbl spin s e elems atoms) t2).length ≤
      (thresholded (sum_by_orb tbl spin s e elems atoms) t1).length ∧
    (thresholded (sum_by_orb_or tbl spin s e elems atoms) t2).length ≤
      (thresholded (sum_by_orb_or tbl spin s e elems atoms) t1).length ∧
    (∀ row ∈ sum_by_at tbl spin s e elems atoms,
      (row ∈ thresholded (sum_by_at tbl spin s e elems atoms) t1 ↔ t1 ≤ row.2)) ∧
    (∀ row ∈ sum_by_orb tbl spin s e elems atoms,
      (row ∈ thresholded (sum_by_orb tbl spin s e elems atoms) t1 ↔ t1 ≤ row.2)) ∧
    (∀ row ∈ sum_by_orb_or tbl spin s e elems atoms,
      (row ∈ thresholded (sum_by_orb_or tbl spin s e elems atoms) t1 ↔ t1 ≤ row.2)) := by
  refine ⟨thresholded_length_mono _ _ _ h, thresholded_length_mono _ _ _ h,
    thresholded_length_mono _ _ _ h, ?_, ?_, ?_⟩
  · intro row hrow
    rw [mem_thresholded]
    exact ⟨fun h2 => h2.2, fun h2 => ⟨hrow, h2⟩⟩
  · intro row hrow
    rw [mem_thresholded]
    exact ⟨fun h2 => h2.2, fun h2 => ⟨hrow, h2⟩⟩
  · intro row hrow
    rw [mem_thresholded]
    exact ⟨fun h2 => h2.2, fun h2 => ⟨hrow, h2⟩⟩

/-- Witness for C3 at a concrete table with thresholds 20 and 50. -/
theorem threshold_monotone_and_inclusive_witness :
    (20 : Rat) ≤ 50 ∧
    ((thresholded (sum_by_at [⟨5, 0, -3/10, 2, 0, "C", "s", 's', 70⟩,
        ⟨5, 0, -3/10, 2, 1, "N", "pz", 'p', 30⟩] 0 0 9 ["C", "N"] [0, 1]) 50).length ≤
      (thresholded (sum_by_at [⟨5, 0, -3/10, 2, 0, "C", "s", 's', 70⟩,
        ⟨5, 0, -3/10, 2, 1, "N", "pz", 'p', 30⟩] 0 0 9 ["C", "N"] [0, 1]) 20).length ∧
    (thresholded (sum_by_orb [⟨5, 0, -3/10, 2, 0, "C", "s", 's', 70⟩,
        ⟨5, 0, -3/10, 2, 1, "N", "pz", 'p', 30⟩] 0 0 9 ["C", "N"] [0, 1]) 50).length ≤
      (thresholded (sum_by_orb [⟨5, 0, -3/10, 2, 0, "C", "s", 's', 70⟩,
        ⟨5, 0, -3/10, 2, 1, "N", "pz", 'p', 30⟩] 0 0 9 ["C", "N"] [0, 1]) 20).length ∧
    (thresholded (sum_by_orb_or [⟨5, 0, -3/10, 2, 0, "C", "s", 's', 70⟩,
        ⟨5, 0, -3/10, 2, 1, "N", "pz", 'p', 30⟩] 0 0 9 ["C", "N"] [0, 1]) 50).length ≤
      (thresholded (sum_by_orb_or [⟨5, 0, -3/10, 2, 0, "C", "s", 's', 70⟩,
        ⟨5, 0, -3/10, 2, 1, "N", "pz", 'p', 30⟩] 0 0 9 ["C", "N"] [0, 1]) 20).length ∧
    (∀ row ∈ sum_by_at [⟨5, 0, -3/10, 2, 0, "C", "s", 's', 70⟩,
        ⟨5, 0, -3/10, 2, 1, "N", "pz", 'p', 30⟩] 0 0 9 ["C", "N"] [0, 1],
      (row ∈ thresholded (sum_by_at [⟨5, 0, -3/10, 2, 0, "C", "s", 's', 70⟩,
        ⟨5, 0, -3/10, 2, 1, "N", "pz", 'p', 30⟩] 0 0 9 ["C", "N"] [0, 1]) 20 ↔
        20 ≤ row.2)) ∧
    (∀ row ∈ sum_by_orb [⟨5, 0, -3/10, 2, 0, "C", "s", 's', 70⟩,
        ⟨5, 0, -3/10, 2, 1, "N", "pz", 'p', 30⟩] 0 0 9 ["C", "N"] [0, 1],
      (row ∈ thresholded (sum_by_orb [⟨5, 0, -3/10, 2, 0, "C", "s", 's', 70⟩,
        ⟨5, 0, -3/10, 2, 1, "N", "pz", 'p', 30⟩] 0 0 9 ["C", "N"] [0, 1]) 20 ↔
        20 ≤ row.2)) ∧
    (∀ row ∈ sum_by_orb_or [⟨5, 0, -3/10, 2, 0, "C", "s", 's', 70⟩,
        ⟨5, 0, -3/10, 2, 1, "N", "pz", 'p', 30⟩] 0 0 9 ["C", "N"] [0, 1],
      (row ∈ thresholded (sum_by_orb_or [⟨5, 0, -3/10, 2, 0, "C", "s", 's', 70⟩,
        ⟨5, 0, -3/10, 2, 1, "N", "pz", 'p', 30⟩] 0 0 9 ["C", "N"] [0, 1]) 20 ↔
        20 ≤ row.2))) :=
  ⟨by norm_num,
    threshold_monotone_and_inclusive _ 0 0 9 ["C", "N"] [0, 1] 20 50 (by norm_num)⟩

/-- A non-empty list all of whose members equal `v` dedups to
`[v]`. -/
theorem dedup_const {α : Type} [DecidableEq α] (v : α) :
    ∀ l : List α, l ≠ [] → (∀ x ∈ l, x = v) → l.dedup = [v] := by
  intro l
  induction l with
  | nil => intro h _; exact absurd rfl h
  | cons a t ih =>
    intro _ hall
    have ha : a = v := hall a (by simp)
    cases t with
    | nil =>
      subst ha
      simp
    | cons b t2 =>
      have hne : (b :: t2) ≠ [] := by simp
      have hall2 : ∀ x ∈ b :: t2, x = v := fun x hx => hall x (List.mem_cons_of_mem a hx)
      have hb : b = v := hall2 b (by simp)
      have hmem : a ∈ b :: t2 := by
        rw [ha, ← hb]
        simp
      rw [List.dedup_cons_of_mem hmem, ih hne hall2]

/-- C4.  HOMO derivation: with exactly two distinct occupation
values, 0 and one positive value, the second ascending occupation
group is the occupied one, so `homo_num` is the maximum orbital
number among records with positive occupation. -/
theorem homo_eq_max_occupied (tbl : List Record) (c : Rat) (hc : 0 < c)
    (hall : ∀ r ∈ tbl, r.orb_occ = 0 ∨ r.orb_occ = c)
    (h0 : ∃ r ∈ tbl, r.orb_occ = 0) (hcc : ∃ r ∈ tbl, r.orb_occ = c) :
    homoNum tbl = some (maxOrbNum (tbl.filter (fun r => decide (0 < r.orb_occ)))) := by
  have hkeys : occGroups tbl = [0, c] := by
    have hperm : List.Perm ((tbl.map (fun r => r.orb_occ)).dedup) [0, c] := by
      rw [List.perm_ext_iff_of_nodup (List.nodup_dedup _) ?_]
      · intro a
        rw [List.mem_dedup, List.mem_map]
        constructor
        · rintro ⟨r, hr, rfl⟩
          rcases hall r hr with h | h <;> simp [h]
        · intro ha
          simp only [List.mem_cons, List.not_mem_nil, or_false] at ha
          rcases ha with rfl | rfl
          · obtain ⟨r, hr, h⟩ := h0
            exact ⟨r, hr, h⟩
          · obtain ⟨r, hr, h⟩ := hcc
            exact ⟨r, hr, h⟩
      · have h01 : (0 : Rat) ∉ [c] := by
          simp only [List.mem_singleton]
          exact fun h => hc.ne' h.symm
        exact List.nodup_cons.mpr ⟨h01, List.nodup_singleton c⟩
    have hsorted1 : List.Sorted (fun a b => a ≤ b) (occGroups tbl) :=
      List.sorted_insertionSort _ _
    have hperm2 : List.Perm (occGroups tbl) [0, c] :=
      (List.perm_insertionSort _ _).trans hperm
    have hsorted2 : List.Sorted (fun a b => a ≤ b) [0, c] := by
      refine List.sorted_cons.mpr ⟨?_, List.sorted_singleton c⟩
      intro b hb
      rw [List.mem_singleton] at hb
      rw [hb]
      exact hc.le
    exact List.eq_of_perm_of_sorted hperm2 hsorted1 hsorted2
  rw [homoNum, hkeys]
  show some (maxOrbNum (tbl.filter (fun r => decide (r.orb_occ = c))))
    = some (maxOrbNum (tbl.filter (fun r => decide (0 < r.orb_occ))))
  congr 1
  apply congrArg
  apply List.filter_congr
  intro r hr
  rcases hall r hr with h | h
  · have h2 : ¬ (0 : Rat) = c := fun h3 => hc.ne' h3.symm
    simp [h, h2]
  · simp [h, hc]

/-- Witness for C4 at a concrete table with occupations 0 and 2. -/
theorem homo_eq_max_occupied_witness :
    (0 : Rat) < 2 ∧
    (∀ r ∈ [⟨5, 0, -3/10, 2, 0, "C", "s", 's', 70⟩,
      ⟨6, 0, 1/10, 0, 0, "C", "s", 's', 100⟩],
      Record.orb_occ r = 0 ∨ Record.orb_occ r = 2) ∧
    (∃ r ∈ [⟨5, 0, -3/10, 2, 0, "C", "s", 's', 70⟩,
      ⟨6, 0, 1/10, 0, 0, "C", "s", 's', 100⟩], Record.orb_occ r = 0) ∧
    (∃ r ∈ [⟨5, 0, -3/10, 2, 0, "C", "s", 's', 70⟩,
      ⟨6, 0, 1/10, 0, 0, "C", "s", 's', 100⟩], Record.orb_occ r = 2) ∧
    homoNum [⟨5, 0, -3/10, 2, 0, "C", "s", 's', 70⟩,
      ⟨6, 0, 1/10, 0, 0, "C", "s", 's', 100⟩]
      = some (maxOrbNum ([⟨5, 0, -3/10, 2, 0, "C", "s", 's', 70⟩,
        ⟨6, 0, 1/10, 0, 0, "C", "s", 's', 100⟩].filter
        (fun r => decide (0 < r.orb_occ)))) :=
  ⟨by norm_num, by decide, by decide, by decide,
    homo_eq_max_occupied _ 2 (by norm_num) (by decide) (by decide) (by decide)⟩

/-- C10.  A table whose records all share a single occupation value
has a single occupation group, so the unconditional `homo_num`
lookup of group row 1 raises an unhandled `KeyError` before the
report or any plot is written, whatever the orbital expression
said. -/
theorem single_occupation_crash (tbl : List Record) (v : Rat)
    (hne : tbl ≠ []) (hall : ∀ r ∈ tbl, r.orb_occ = v)
    (cacheExists newcsv : Bool) (expr : List Char) :
    (run tbl cacheExists newcsv expr).outcome = Outcome.errHomoLookup ∧
    Effect.reportWrite ∉ (run tbl cacheExists newcsv expr).effects ∧
    Effect.plotWrite ∉ (run tbl cacheExists newcsv expr).effects := by
  have hhomo : homoNum tbl = none := by
    have hd : (tbl.map (fun r => r.orb_occ)).dedup = [v] := by
      apply dedup_const
      · simp [hne]
      · intro x hx
        rw [List.mem_map] at hx
        obtain ⟨r, hr, rfl⟩ := hx
        exact hall r hr
    have hocc : occGroups tbl = [v] := by
      rw [occGroups, hd]
      rfl
    rw [homoNum, hocc]
  cases cacheExists <;> cases newcsv <;> simp [run, hhomo]

/-- C5.  HOMO window: `h` followed by a digit string of value `k`
resolves to `[homo-k, homo+k]`; inside bounds this range holds
exactly `2k+1` orbital numbers and passes the bounds check,
otherwise the bounds check fails. -/
theorem homo_window (d : List Char) (homo maxA : Int)
    (hne : d ≠ []) (hd : ∀ x ∈ d, x.isDigit = true) (hh : 0 ≤ homo) :
    orbDispatch ('h' :: d) homo maxA
        = OrbOutcome.sel (homo - parseDigits d) (homo + parseDigits d) ∧
    (0 ≤ homo - parseDigits d ∧ homo + parseDigits d ≤ maxA →
      (¬ boundsCheckFails (homo - parseDigits d) (homo + parseDigits d) maxA ∧
        (orbitalList (homo - parseDigits d) (homo + parseDigits d)).length
          = 2 * parseDigits d + 1)) ∧
    (¬ (0 ≤ homo - parseDigits d ∧ homo + parseDigits d ≤ maxA) →
      boundsCheckFails (homo - parseDigits d) (homo + parseDigits d) maxA) := by
  obtain ⟨c1, rest, rfl⟩ : ∃ c1 rest, d = c1 :: rest := by
    cases d with
    | nil => exact absurd rfl hne
    | cons a t => exact ⟨a, t, rfl⟩
  have hdig : c1.isDigit = true := hd c1 (by simp)
  have htake : (c1 :: rest).takeWhile Char.isDigit = c1 :: rest :=
    List.takeWhile_eq_self_iff.mpr hd
  refine ⟨?_, ?_, ?_⟩
  · have g1 : ('h' :: c1 :: rest) ≠ ['a', 'l', 'l'] := by simp
    have g2a : ('h' :: c1 :: rest) ≠ ['H', 'O', 'M', 'O'] := by simp
    have g2b : ('h' :: c1 :: rest) ≠ ['h'] := by simp
    have g2c : ('h' :: c1 :: rest) ≠ ['h', 'o', 'm', 'o'] := by
      intro heq
      injection heq with heq1 heq2
      injection heq2 with heq3 heq4
      rw [heq3] at hdig
      exact absurd hdig (by decide)
    have gAll : ('h' :: c1 :: rest).all Char.isDigit = false := by
      simp [List.all_cons]
    have gSD : startsDigit ('h' :: c1 :: rest) = false := rfl
    simp [orbDispatch, homoBranch, g1, g2a, g2b, g2c, gAll, gSD, hdig, htake]
  · intro hgood
    constructor
    · intro hb
      rcases hb with h3 | h3 | h3 <;> omega
    · simp only [orbitalList, List.length_map, List.length_range]
      omega
  · intro hbad
    simp only [boundsCheckFails]
    omega

/-- Witness for C5 with `h10`, `homo = 5`, `max = 9` (out of
bounds: the window `-5 ... 15` fails the bounds check). -/
theorem homo_window_witness :
    (['1', '0'] : List Char) ≠ [] ∧
    (∀ x ∈ (['1', '0'] : List Char), x.isDigit = true) ∧
    (0 : Int) ≤ 5 ∧
    (orbDispatch ('h' :: ['1', '0']) 5 9
        = OrbOutcome.sel (5 - parseDigits ['1', '0']) (5 + parseDigits ['1', '0']) ∧
      (0 ≤ 5 - (parseDigits ['1', '0'] : Int) ∧ 5 + (parseDigits ['1', '0'] : Int) ≤ 9 →
        (¬ boundsCheckFails (5 - parseDigits ['1', '0']) (5 + parseDigits ['1', '0']) 9 ∧
          (orbitalList (5 - parseDigits ['1', '0']) (5 + parseDigits ['1', '0'])).length
            = 2 * parseDigits ['1', '0'] + 1)) ∧
      (¬ (0 ≤ 5 - (parseDigits ['1', '0'] : Int) ∧
          5 + (parseDigits ['1', '0'] : Int) ≤ 9) →
        boundsCheckFails (5 - parseDigits ['1', '0']) (5 + parseDigits ['1', '0']) 9)) :=
  ⟨by decide, by decide, by decide,
    homo_window ['1', '0'] 5 9 (by decide) (by decide) (by decide)⟩

/-- C6 counterexample: the expression `1x2` matches none of the
grammar forms the claim lists, yet the dispatch resolves it to the
range `[1, 2]` instead of the fatal malformed-input exit (the
anchored `\d+` branch fires on the leading digit and scoops up both
digit runs). -/
theorem orb_malformed_counterexample :
    orbDispatch ['1', 'x', '2'] 3 10 = OrbOutcome.sel 1 2 ∧
    orbDispatch ['1', 'x', '2'] 3 10 ≠ OrbOutcome.malformedExit := by
  constructor
  · decide
  · decide

/-- C6 amended: an orbital expression that is none of the literal
tokens, does not begin with a digit, and does not begin with `h`
followed by a digit, terminates in the fatal malformed-input
exit. -/
theorem orb_malformed_amended (l : List Char) (homo maxA : Int)
    (h1 : l ≠ ['a', 'l', 'l']) (h2 : l ≠ ['H', 'O', 'M', 'O']) (h3 : l ≠ ['h'])
    (h4 : l ≠ ['h', 'o', 'm', 'o']) (h5 : startsDigit l = false)
    (h6 : ∀ c1 rest, l = 'h' :: c1 :: rest → c1.isDigit = false) :
    orbDispatch l homo maxA = OrbOutcome.malformedExit := by
  have gAll : ¬ (l ≠ [] ∧ l.all Char.isDigit = true) := by
    rintro ⟨hne, hall⟩
    cases l with
    | nil => exact hne rfl
    | cons a t =>
      rw [List.all_cons, Bool.and_eq_true] at hall
      have hsd : startsDigit (a :: t) = true := hall.1
      rw [h5] at hsd
      cases hsd
  have g2 : ¬ (l = ['H', 'O', 'M', 'O'] ∨ l = ['h'] ∨ l = ['h', 'o', 'm', 'o']) := by
    rintro (h | h | h)
    · exact h2 h
    · exact h3 h
    · exact h4 h
  rw [orbDispatch, if_neg h1, if_neg g2, if_neg gAll, if_neg (by simp [h5])]
  cases l with
  | nil => rfl
  | cons c0 t =>
    cases t with
    | nil => rfl
    | cons c1 rest =>
      by_cases hc : c0 = 'h'
      · subst hc
        have hd1 : c1.isDigit = false := h6 c1 rest rfl
        simp [homoBranch, hd1]
      · simp [homoBranch, hc]

/-- Witness for the amended C6 at the expression `foo`. -/
theorem orb_malformed_amended_witness :
    (['f', 'o', 'o'] : List Char) ≠ ['a', 'l', 'l'] ∧
    (['f', 'o', 'o'] : List Char) ≠ ['H', 'O', 'M', 'O'] ∧
    (['f', 'o', 'o'] : List Char) ≠ ['h'] ∧
    (['f', 'o', 'o'] : List Char) ≠ ['h', 'o', 'm', 'o'] ∧
    startsDigit ['f', 'o', 'o'] = false ∧
    (∀ c1 rest, (['f', 'o', 'o'] : List Char) = 'h' :: c1 :: rest →
      c1.isDigit = false) ∧
    orbDispatch ['f', 'o', 'o'] 3 10 = OrbOutcome.malformedExit :=
  ⟨by decide, by decide, by decide, by decide, by decide,
    by intro c1 rest h; simp at h,
    orb_malformed_amended ['f', 'o', 'o'] 3 10 (by decide) (by decide) (by decide)
      (by decide) (by decide) (by intro c1 rest h; simp at h)⟩

/-- C7.  Inverted-range atomicity: the expression `3-1` makes the
run exit at the inverted-range check, with no report and no plot
written (only the cache CSV may already exist as an effect). -/
theorem inverted_range_no_outputs (tbl : List Record) (cacheExists newcsv : Bool)
    (h : Int) (hh : homoNum tbl = some h) :
    (run tbl cacheExists newcsv ['3', '-', '1']).outcome = Outcome.exitInverted ∧
    Effect.reportWrite ∉ (run tbl cacheExists newcsv ['3', '-', '1']).effects ∧
    Effect.plotWrite ∉ (run tbl cacheExists newcsv ['3', '-', '1']).effects := by
  have hdisp : orbDispatch ['3', '-', '1'] h (totNumOrbA tbl)
      = OrbOutcome.invertedExit := rfl
  cases cacheExists <;> cases newcsv <;> simp [run, hh, hdisp]

/-- Witness for C7 at a concrete two-occupation table. -/
theorem inverted_range_no_outputs_witness :
    homoNum [⟨5, 0, -3/10, 2, 0, "C", "s", 's', 70⟩,
      ⟨6, 0, 1/10, 0, 0, "C", "s", 's', 100⟩] = some 5 ∧
    ((run [⟨5, 0, -3/10, 2, 0, "C", "s", 's', 70⟩,
        ⟨6, 0, 1/10, 0, 0, "C", "s", 's', 100⟩] false false
        ['3', '-', '1']).outcome = Outcome.exitInverted ∧
      Effect.reportWrite ∉ (run [⟨5, 0, -3/10, 2, 0, "C", "s", 's', 70⟩,
        ⟨6, 0, 1/10, 0, 0, "C", "s", 's', 100⟩] false false
        ['3', '-', '1']).effects ∧
      Effect.plotWrite ∉ (run [⟨5, 0, -3/10, 2, 0, "C", "s", 's', 70⟩,
        ⟨6, 0, 1/10, 0, 0, "C", "s", 's', 100⟩] false false
        ['3', '-', '1']).effects) :=
  ⟨by decide,
    inverted_range_no_outputs _ false false 5 (by decide)⟩

/-- Witness for C10 at a one-record table with occupation 2 and the
orbital expression `all`. -/
theorem single_occupation_crash_witness :
    ([⟨5, 0, -3/10, 2, 0, "C", "s", 's', 70⟩] : List Record) ≠ [] ∧
    (∀ r ∈ [⟨5, 0, -3/10, 2, 0, "C", "s", 's', 70⟩], Record.orb_occ r = 2) ∧
    ((run [⟨5, 0, -3/10, 2, 0, "C", "s", 's', 70⟩] true false
        ['a', 'l', 'l']).outcome = Outcome.errHomoLookup ∧
      Effect.reportWrite ∉ (run [⟨5, 0, -3/10, 2, 0, "C", "s", 's', 70⟩] true false
        ['a', 'l', 'l']).effects ∧
      Effect.plotWrite ∉ (run [⟨5, 0, -3/10, 2, 0, "C", "s", 's', 70⟩] true false
        ['a', 'l', 'l']).effects) :=
  ⟨by decide, by decide,
    single_occupation_crash _ 2 (by decide) (by decide) true false ['a', 'l', 'l']⟩

/-- A column of integer-printed cells reads back as `int64`. -/
theorem inferDtype_int_col {α : Type} (f : α → Int) (l : List α) :
    inferDtype (l.map (fun a => Cell.int (f a))) = Dtype.int64 := by
  have h : (l.map (fun a => Cell.int (f a))).all isIntCell = true := by
    rw [List.all_eq_true]
    intro x hx
    rw [List.mem_map] at hx
    obtain ⟨a, _, rfl⟩ := hx
    rfl
  simp [inferDtype, h]

/-- A non-empty column of float-printed cells reads back as
`float64` — in particular the `float32` column `orb_occ` widens. -/
theorem inferDtype_num_col {α : Type} (f : α → Rat) (l : List α) (hne : l ≠ []) :
    inferDtype (l.map (fun a => Cell.num (f a))) = Dtype.float64 := by
  obtain ⟨a, t, rfl⟩ : ∃ a t, l = a :: t := by
    cases l with
    | nil => exact absurd rfl hne
    | cons a t => exact ⟨a, t, rfl⟩
  have h2 : ((a :: t).map (fun a => Cell.num (f a))).all isNumericCell = true := by
    rw [List.all_eq_true]
    intro x hx
    rw [List.mem_map] at hx
    obtain ⟨b, _, rfl⟩ := hx
    rfl
  unfold inferDtype
  rw [if_neg (by simp [List.all_cons, isIntCell]), if_pos h2]

/-- A non-empty column of textual cells reads back as `object`. -/
theorem inferDtype_str_col {α : Type} (f : α → String) (l : List α) (hne : l ≠ []) :
    inferDtype (l.map (fun a => Cell.str (f a))) = Dtype.obj := by
  obtain ⟨a, t, rfl⟩ : ∃ a t, l = a :: t := by
    cases l with
    | nil => exact absurd rfl hne
    | cons a t => exact ⟨a, t, rfl⟩
  unfold inferDtype
  rw [if_neg (by simp [List.all_cons, isIntCell]),
    if_neg (by simp [List.all_cons, isNumericCell])]

/-- The prepended index column reads back as `int64`. -/
theorem inferDtype_indexCells (n : Nat) : inferDtype (indexCells n) = Dtype.int64 := by
  have h : (indexCells n).all isIntCell = true := by
    rw [List.all_eq_true]
    intro x hx
    rw [indexCells, List.mem_map] at hx
    obtain ⟨i, _, rfl⟩ := hx
    rfl
  simp [inferDtype, h]

/-- C1 counterexample: at a concrete one-record table, reloading the
cache CSV does not reproduce the freshly parsed store field-for-field
— `to_csv` (default `index=True`) adds an `Unnamed: 0` column and
`read_csv` re-types `orb_occ` as `float64` instead of `float32`. -/
theorem cache_round_trip_counterexample :
    read_csv (to_csv (freshStore [⟨5, 0, -1, 2, 0, "C", "pz", 'p', 70⟩]))
      ≠ freshStore [⟨5, 0, -1, 2, 0, "C", "pz", 'p', 70⟩] := by
  decide

/-- C1 amended: reloading the cache CSV preserves every original
column — same names, same order, same cell values — but the store is
not identical field-for-field: it gains a leading `Unnamed: 0`
integer index column, and the `orb_occ` dtype widens from `float32`
to `float64`. -/
theorem cache_round_trip_amended (tbl : List Record) (hne : tbl ≠ []) :
    read_csv (to_csv (freshStore tbl)) =
      ⟨"Unnamed: 0", Dtype.int64, indexCells tbl.length⟩ ::
      [⟨"orb_num", Dtype.int64, tbl.map (fun r => Cell.int r.orb_num)⟩,
       ⟨"orb_spin", Dtype.int64, tbl.map (fun r => Cell.int r.orb_spin)⟩,
       ⟨"orb_en", Dtype.float64, tbl.map (fun r => Cell.num r.orb_en)⟩,
       ⟨"orb_occ", Dtype.float64, tbl.map (fun r => Cell.num r.orb_occ)⟩,
       ⟨"atom_no", Dtype.int64, tbl.map (fun r => Cell.int r.atom_no)⟩,
       ⟨"element", Dtype.obj, tbl.map (fun r => Cell.str r.element)⟩,
       ⟨"orb_red", Dtype.obj, tbl.map (fun r => Cell.str (String.mk [r.orb_red]))⟩,
       ⟨"orbital", Dtype.obj, tbl.map (fun r => Cell.str r.orbital)⟩,
       ⟨"orb_comp", Dtype.float64, tbl.map (fun r => Cell.num r.orb_comp)⟩] := by
  have hrows : numRows (freshStore tbl) = tbl.length := by
    simp [numRows, freshStore]
  simp only [to_csv, read_csv, hrows]
  simp only [freshStore, List.map_cons, List.map_nil, List.zip_cons_cons,
    List.zip_nil_right]
  rw [inferDtype_indexCells, inferDtype_int_col, inferDtype_int_col,
    inferDtype_num_col _ _ hne, inferDtype_num_col _ _ hne, inferDtype_int_col,
    inferDtype_str_col _ _ hne, inferDtype_str_col _ _ hne,
    inferDtype_str_col _ _ hne, inferDtype_num_col _ _ hne]
  simp [readName]

/-- Witness for the amended C1 at a concrete one-record table. -/
theorem cache_round_trip_amended_witness :
    ([⟨5, 0, -1, 2, 0, "C", "pz", 'p', 70⟩] : List Record) ≠ [] ∧
    read_csv (to_csv (freshStore [⟨5, 0, -1, 2, 0, "C", "pz", 'p', 70⟩])) =
      [⟨"Unnamed: 0", Dtype.int64, [Cell.int 0]⟩,
       ⟨"orb_num", Dtype.int64, [Cell.int 5]⟩,
       ⟨"orb_spin", Dtype.int64, [Cell.int 0]⟩,
       ⟨"orb_en", Dtype.float64, [Cell.num (-1)]⟩,
       ⟨"orb_occ", Dtype.float64, [Cell.num 2]⟩,
       ⟨"atom_no", Dtype.int64, [Cell.int 0]⟩,
       ⟨"element", Dtype.obj, [Cell.str "C"]⟩,
       ⟨"orb_red", Dtype.obj, [Cell.str "p"]⟩,
       ⟨"orbital", Dtype.obj, [Cell.str "pz"]⟩,
       ⟨"orb_comp", Dtype.float64, [Cell.num 70]⟩] :=
  ⟨by decide,
    (cache_round_trip_amended [⟨5, 0, -1, 2, 0, "C", "pz", 'p', 70⟩]
      (by decide)).trans (by decide)⟩

/-- C8.  Constraint fallback: a constraint expression other than
`none` whose element tokens and atom tokens all miss the table warns
and falls back to no restriction, so the three constrained views
coincide with those of an unconstrained (`none`) run. -/
theorem constraint_fallback (tbl : List Record) (expr : List Char)
    (hne : expr ≠ ['n', 'o', 'n', 'e'])
    (hel : ∀ t ∈ elmFindall expr, String.mk t ∉ uniqueElements tbl)
    (hat : ∀ t ∈ digitRuns expr, ((parseDigits t : Int)) ∉ uniqueAtoms tbl) :
    constraintResolve tbl expr = ⟨uniqueElements tbl, uniqueAtoms tbl, true⟩ ∧
    (constraintResolve tbl expr).elements
        = (constraintResolve tbl ['n', 'o', 'n', 'e']).elements ∧
    (constraintResolve tbl expr).atoms
        = (constraintResolve tbl ['n', 'o', 'n', 'e']).atoms ∧
    (∀ spin : Nat, ∀ s e : Int,
      sum_by_at tbl spin s e (constraintResolve tbl expr).elements
          (constraintResolve tbl expr).atoms
        = sum_by_at tbl spin s e (constraintResolve tbl ['n', 'o', 'n', 'e']).elements
          (constraintResolve tbl ['n', 'o', 'n', 'e']).atoms ∧
      sum_by_orb tbl spin s e (constraintResolve tbl expr).elements
          (constraintResolve tbl expr).atoms
        = sum_by_orb tbl spin s e (constraintResolve tbl ['n', 'o', 'n', 'e']).elements
          (constraintResolve tbl ['n', 'o', 'n', 'e']).atoms ∧
      sum_by_orb_or tbl spin s e (constraintResolve tbl expr).elements
          (constraintResolve tbl expr).atoms
        = sum_by_orb_or tbl spin s e (constraintResolve tbl ['n', 'o', 'n', 'e']).elements
          (constraintResolve tbl ['n', 'o', 'n', 'e']).atoms) := by
  have hfe : (((elmFindall expr).map String.mk).dedup).filter
      (fun s => decide (s ∈ uniqueElements tbl)) = [] := by
    rw [List.filter_eq_nil_iff]
    intro s hs
    rw [List.mem_dedup, List.mem_map] at hs
    obtain ⟨t, ht, rfl⟩ := hs
    simp only [decide_eq_true_eq]
    exact hel t ht
  have hfa : ((((digitRuns expr).map (fun t => (parseDigits t : Int))).dedup)).filter
      (fun a => decide (a ∈ uniqueAtoms tbl)) = [] := by
    rw [List.filter_eq_nil_iff]
    intro a ha
    rw [List.mem_dedup, List.mem_map] at ha
    obtain ⟨t, ht, rfl⟩ := ha
    simp only [decide_eq_true_eq]
    exact hat t ht
  have hmain : constraintResolve tbl expr
      = ⟨uniqueElements tbl, uniqueAtoms tbl, true⟩ := by
    rw [constraintResolve, if_neg hne]
    by_cases hu : startsUpper expr = true
    · simp [hu, hfe]
    · by_cases hdg : startsDigit expr = true
      · simp [hu, hdg, hfa]
      · simp [hu, hdg]
  refine ⟨hmain, ?_, ?_, ?_⟩
  · rw [hmain]
    rfl
  · rw [hmain]
    rfl
  · intro spin s e
    rw [hmain]
    exact ⟨rfl, rfl, rfl⟩

/-- Witness for C8: the constraint expression `Fe` against a
carbon/nitrogen table. -/
theorem constraint_fallback_witness :
    (['F', 'e'] : List Char) ≠ ['n', 'o', 'n', 'e'] ∧
    (∀ t ∈ elmFindall ['F', 'e'],
      String.mk t ∉ uniqueElements [⟨5, 0, -3/10, 2, 0, "C", "s", 's', 70⟩,
        ⟨5, 0, -3/10, 2, 1, "N", "pz", 'p', 30⟩]) ∧
    (∀ t ∈ digitRuns ['F', 'e'],
      ((parseDigits t : Int)) ∉ uniqueAtoms [⟨5, 0, -3/10, 2, 0, "C", "s", 's', 70⟩,
        ⟨5, 0, -3/10, 2, 1, "N", "pz", 'p', 30⟩]) ∧
    constraintResolve [⟨5, 0, -3/10, 2, 0, "C", "s", 's', 70⟩,
        ⟨5, 0, -3/10, 2, 1, "N", "pz", 'p', 30⟩] ['F', 'e']
      = ⟨uniqueElements [⟨5, 0, -3/10, 2, 0, "C", "s", 's', 70⟩,
          ⟨5, 0, -3/10, 2, 1, "N", "pz", 'p', 30⟩],
         uniqueAtoms [⟨5, 0, -3/10, 2, 0, "C", "s", 's', 70⟩,
          ⟨5, 0, -3/10, 2, 1, "N", "pz", 'p', 30⟩], true⟩ :=
  ⟨by decide, by decide, by decide,
    (constraint_fallback [⟨5, 0, -3/10, 2, 0, "C", "s", 's', 70⟩,
      ⟨5, 0, -3/10, 2, 1, "N", "pz", 'p', 30⟩] ['F', 'e']
      (by decide) (by decide) (by decide)).1⟩

/-- The constraint resolution always leaves at least one side
unrestricted: an element constraint keeps all atoms, an atom
constraint keeps all elements. -/
theorem constraint_shape (tbl : List Record) (cexpr : List Char) :
    (constraintResolve tbl cexpr).atoms = uniqueAtoms tbl ∨
    (constraintResolve tbl cexpr).elements = uniqueElements tbl := by
  rw [constraintResolve]
  by_cases h1 : cexpr = ['n', 'o', 'n', 'e']
  · simp [h1]
  · rw [if_neg h1]
    by_cases h2 : startsUpper cexpr = true
    · by_cases h3 : (((elmFindall cexpr).map String.mk).dedup).filter
          (fun s => decide (s ∈ uniqueElements tbl)) = []
      · simp [h2, h3]
      · simp [h2, h3]
    · by_cases h4 : startsDigit cexpr = true
      · by_cases h5 : ((((digitRuns cexpr).map
            (fun t => (parseDigits t : Int))).dedup)).filter
            (fun a => decide (a ∈ uniqueAtoms tbl)) = []
        · simp [h2, h4, h5]
        · simp [h2, h4, h5]
      · simp [h2, h4]

/-- Every atom of the table lies among the atoms of the full element
selection. -/
theorem mem_atomsOfElements_all (tbl : List Record) :
    ∀ a ∈ uniqueAtoms tbl, a ∈ atomsOfElements tbl (uniqueElements tbl) := by
  intro a ha
  rw [uniqueAtoms, List.mem_dedup, List.mem_map] at ha
  obtain ⟨r, hr, rfl⟩ := ha
  rw [atomsOfElements, List.mem_map]
  refine ⟨r, ?_, rfl⟩
  rw [List.mem_filter]
  refine ⟨hr, ?_⟩
  simp only [decide_eq_true_eq]
  rw [uniqueElements, List.mem_dedup]
  exact List.mem_map_of_mem _ hr

/-- `aoResolve` when the atom selection covers every atom of the
table: the focus set is the requested atoms successively intersected
with the two constraint selections; empty means warn-and-off. -/
theorem ao_resolve_full_atoms (tbl : List Record) (listAtoms : List Int)
    (listElems : List String) (expr : List Char) (hd : startsDigit expr = true)
    (hA : ∀ a ∈ uniqueAtoms tbl, a ∈ listAtoms) :
    aoResolve tbl listAtoms listElems expr =
      (if (((requestedAtoms tbl expr).filter (fun a => decide (a ∈ listAtoms))).filter
            (fun a => decide (a ∈ atomsOfElements tbl listElems))) = []
       then AoResult.off true
       else AoResult.on (((requestedAtoms tbl expr).filter
            (fun a => decide (a ∈ listAtoms))).filter
            (fun a => decide (a ∈ atomsOfElements tbl listElems)))) := by
  have hRsub : ∀ a ∈ requestedAtoms tbl expr, a ∈ uniqueAtoms tbl := by
    intro a ha
    rw [requestedAtoms, List.mem_filter] at ha
    exact of_decide_eq_true ha.2
  have hRCa : (requestedAtoms tbl expr).filter (fun a => decide (a ∈ listAtoms))
      = requestedAtoms tbl expr := by
    rw [List.filter_eq_self]
    intro a ha
    exact decide_eq_true (hA a (hRsub a ha))
  have hSCa : ((requestedAtoms tbl expr).filter
      (fun a => decide (a ∈ atomsOfElements tbl listElems))).filter
      (fun a => decide (a ∈ listAtoms))
      = (requestedAtoms tbl expr).filter
        (fun a => decide (a ∈ atomsOfElements tbl listElems)) := by
    rw [List.filter_eq_self]
    intro a ha
    rw [List.mem_filter] at ha
    exact decide_eq_true (hA a (hRsub a ha.1))
  by_cases hR : requestedAtoms tbl expr = []
  · simp [aoResolve, hd, hR]
  · by_cases hS : (requestedAtoms tbl expr).filter
        (fun a => decide (a ∈ atomsOfElements tbl listElems)) = []
    · simp [aoResolve, hd, hR, hRCa, hS]
    · simp [aoResolve, hd, hR, hRCa, hSCa, hS]

/-- `aoResolve` when the element selection covers every atom of the
table: same characterization as `ao_resolve_full_atoms`. -/
theorem ao_resolve_full_elements (tbl : List Record) (listAtoms : List Int)
    (listElems : List String) (expr : List Char) (hd : startsDigit expr = true)
    (hB : ∀ a ∈ uniqueAtoms tbl, a ∈ atomsOfElements tbl listElems) :
    aoResolve tbl listAtoms listElems expr =
      (if (((requestedAtoms tbl expr).filter (fun a => decide (a ∈ listAtoms))).filter
            (fun a => decide (a ∈ atomsOfElements tbl listElems))) = []
       then AoResult.off true
       else AoResult.on (((requestedAtoms tbl expr).filter
            (fun a => decide (a ∈ listAtoms))).filter
            (fun a => decide (a ∈ atomsOfElements tbl listElems)))) := by
  have hRsub : ∀ a ∈ requestedAtoms tbl expr, a ∈ uniqueAtoms tbl := by
    intro a ha
    rw [requestedAtoms, List.mem_filter] at ha
    exact of_decide_eq_true ha.2
  have hRCe : (requestedAtoms tbl expr).filter
      (fun a => decide (a ∈ atomsOfElements tbl listElems))
      = requestedAtoms tbl expr := by
    rw [List.filter_eq_self]
    intro a ha
    exact decide_eq_true (hB a (hRsub a ha))
  have hFCe : ((requestedAtoms tbl expr).filter (fun a => decide (a ∈ listAtoms))).filter
      (fun a => decide (a ∈ atomsOfElements tbl listElems))
      = (requestedAtoms tbl expr).filter (fun a => decide (a ∈ listAtoms)) := by
    rw [List.filter_eq_self]
    intro a ha
    rw [List.mem_filter] at ha
    exact decide_eq_true (hB a (hRsub a ha.1))
  have hFCa : ((requestedAtoms tbl expr).filter (fun a => decide (a ∈ listAtoms))).filter
      (fun a => decide (a ∈ listAtoms))
      = (requestedAtoms tbl expr).filter (fun a => decide (a ∈ listAtoms)) := by
    rw [List.filter_eq_self]
    intro a ha
    rw [List.mem_filter] at ha
    exact ha.2
  by_cases hR : requestedAtoms tbl expr = []
  · simp [aoResolve, hd, hR]
  · by_cases hF : (requestedAtoms tbl expr).filter
        (fun a => decide (a ∈ listAtoms)) = []
    · simp [aoResolve, hd, hR, hF, hRCe]
    · simp [aoResolve, hd, hR, hF, hFCe, hFCa]

/-- C9 amended: for a digit-starting focus-atom expression, the
resolved set is the requested atoms successively INTERSECTED with
the atom constraint and with the atoms of the element constraint
(not the union of the two intersections); if that final set is
empty, a warning is issued and no AO detail plots are created. -/
theorem focus_atoms_amended (tbl : List Record) (cexpr expr : List Char)
    (hd : startsDigit expr = true) :
    aoResolve tbl (constraintResolve tbl cexpr).atoms
        (constraintResolve tbl cexpr).elements expr =
      (if (((requestedAtoms tbl expr).filter
            (fun a => decide (a ∈ (constraintResolve tbl cexpr).atoms))).filter
            (fun a => decide (a ∈ atomsOfElements tbl
              (constraintResolve tbl cexpr).elements))) = []
       then AoResult.off true
       else AoResult.on (((requestedAtoms tbl expr).filter
            (fun a => decide (a ∈ (constraintResolve tbl cexpr).atoms))).filter
            (fun a => decide (a ∈ atomsOfElements tbl
              (constraintResolve tbl cexpr).elements)))) := by
  rcases constraint_shape tbl cexpr with h | h
  · apply ao_resolve_full_atoms tbl _ _ expr hd
    rw [h]
    exact fun a ha => ha
  · apply ao_resolve_full_elements tbl _ _ expr hd
    rw [h]
    exact mem_atomsOfElements_all tbl

/-- C9 counterexample: table with atoms 0 (C) and 1 (N), element
constraint `N`, focus-atom expression `0`.  The union the claim
describes is `{0}` (non-empty, so the claim predicts detail plots
for atom 0), but the program warns and creates no detail plots. -/
theorem focus_atoms_counterexample :
    aoResolve [⟨5, 0, -1, 2, 0, "C", "s", 's', 70⟩,
        ⟨5, 0, -1, 2, 1, "N", "pz", 'p', 30⟩]
      (constraintResolve [⟨5, 0, -1, 2, 0, "C", "s", 's', 70⟩,
        ⟨5, 0, -1, 2, 1, "N", "pz", 'p', 30⟩] ['N']).atoms
      (constraintResolve [⟨5, 0, -1, 2, 0, "C", "s", 's', 70⟩,
        ⟨5, 0, -1, 2, 1, "N", "pz", 'p', 30⟩] ['N']).elements
      ['0'] = AoResult.off true ∧
    aoClaimUnion [⟨5, 0, -1, 2, 0, "C", "s", 's', 70⟩,
        ⟨5, 0, -1, 2, 1, "N", "pz", 'p', 30⟩]
      (constraintResolve [⟨5, 0, -1, 2, 0, "C", "s", 's', 70⟩,
        ⟨5, 0, -1, 2, 1, "N", "pz", 'p', 30⟩] ['N']).atoms
      (constraintResolve [⟨5, 0, -1, 2, 0, "C", "s", 's', 70⟩,
        ⟨5, 0, -1, 2, 1, "N", "pz", 'p', 30⟩] ['N']).elements
      ['0'] = [0] := by
  constructor
  · decide
  · decide

/-- Witness for the amended C9 at the counterexample input. -/
theorem focus_atoms_amended_witness :
    startsDigit ['0'] = true ∧
    aoResolve [⟨5, 0, -1, 2, 0, "C", "s", 's', 70⟩,
        ⟨5, 0, -1, 2, 1, "N", "pz", 'p', 30⟩]
      (constraintResolve [⟨5, 0, -1, 2, 0, "C", "s", 's', 70⟩,
        ⟨5, 0, -1, 2, 1, "N", "pz", 'p', 30⟩] ['N']).atoms
      (constraintResolve [⟨5, 0, -1, 2, 0, "C", "s", 's', 70⟩,
        ⟨5, 0, -1, 2, 1, "N", "pz", 'p', 30⟩] ['N']).elements ['0'] =
      (if (((requestedAtoms [⟨5, 0, -1, 2, 0, "C", "s", 's', 70⟩,
            ⟨5, 0, -1, 2, 1, "N", "pz", 'p', 30⟩] ['0']).filter
            (fun a => decide (a ∈ (constraintResolve [⟨5, 0, -1, 2, 0, "C", "s", 's', 70⟩,
              ⟨5, 0, -1, 2, 1, "N", "pz", 'p', 30⟩] ['N']).atoms))).filter
            (fun a => decide (a ∈ atomsOfElements [⟨5, 0, -1, 2, 0, "C", "s", 's', 70⟩,
              ⟨5, 0, -1, 2, 1, "N", "pz", 'p', 30⟩]
              (constraintResolve [⟨5, 0, -1, 2, 0, "C", "s", 's', 70⟩,
                ⟨5, 0, -1, 2, 1, "N", "pz", 'p', 30⟩] ['N']).elements))) = []
       then AoResult.off true
       else AoResult.on (((requestedAtoms [⟨5, 0, -1, 2, 0, "C", "s", 's', 70⟩,
            ⟨5, 0, -1, 2, 1, "N", "pz", 'p', 30⟩] ['0']).filter
            (fun a => decide (a ∈ (constraintResolve [⟨5, 0, -1, 2, 0, "C", "s", 's', 70⟩,
              ⟨5, 0, -1, 2, 1, "N", "pz", 'p', 30⟩] ['N']).atoms))).filter
            (fun a => decide (a ∈ atomsOfElements [⟨5, 0, -1, 2, 0, "C", "s", 's', 70⟩,
              ⟨5, 0, -1, 2, 1, "N", "pz", 'p', 30⟩]
              (constraintResolve [⟨5, 0, -1, 2, 0, "C", "s", 's', 70⟩,
                ⟨5, 0, -1, 2, 1, "N", "pz", 'p', 30⟩] ['N']).elements)))) :=
  ⟨by decide,
    focus_atoms_amended [⟨5, 0, -1, 2, 0, "C", "s", 's', 70⟩,
      ⟨5, 0, -1, 2, 1, "N", "pz", 'p', 30⟩] ['N'] ['0'] (by decide)⟩

end OrcaOrb
